import Mathlib

/-!
Verification of the real-time notification transport of the tender_project
repository: the server-side channel hub and connection gateway
(server/index.js) and the client-side connection manager
(src/hooks/useWebSocket.ts), embedded shallowly and checked against the
specification's claims.
-/

namespace TenderWS

/-- readyState value for an open WebSocket (WHATWG numbering). -/
def WS_OPEN : Nat := 1

/-- A server-side client socket as the broadcast loop sees it: an identity,
its readyState, and whether its underlying send would throw. -/
structure SClient where
  cid : Nat
  readyState : Nat
  sendFails : Bool
  deriving DecidableEq, Repr

/-- JS Map.get over an association list (first binding wins); none models
Map.has returning false. -/
def mapGet {α : Type} (m : List (String × α)) (k : String) : Option α :=
  (m.find? (fun e => e.fst == k)).map Prod.snd

/-- One client.send call: either the payload reaches the client or the send
throws, which broadcastToChannel catches and logs. -/
def clientSend (c : SClient) (data : String) : Except String (Nat × String) :=
  if c.sendFails then Except.error "send failed" else Except.ok (c.cid, data)

/-- Observable outcome of a broadcast call: envelopes delivered (client id,
payload) in order, and the client ids whose send failure was logged. -/
structure BroadcastLog where
  delivered : List (Nat × String)
  logged : List Nat
  deriving DecidableEq, Repr

/-- Shallow embedding of broadcastToChannel (server/index.js lines 112-124):
if the registry has the channel, iterate over its member set; for each member
in the open state attempt a send, catching and logging a failure; otherwise
do nothing. The function is total: no exception escapes to the caller. -/
def broadcastToChannel (wsConnections : List (String × List SClient))
    (channel : String) (data : String) : BroadcastLog :=
  match mapGet wsConnections channel with
  | none => { delivered := [], logged := [] }
  | some clients =>
      clients.foldl (fun log c =>
        if c.readyState = WS_OPEN then
          match clientSend c data with
          | Except.ok d => { log with delivered := log.delivered ++ [d] }
          | Except.error _ => { log with logged := log.logged ++ [c.cid] }
        else log)
        { delivered := [], logged := [] }

/-- The body folded by broadcastToChannel. -/
def broadcastStep (data : String) (log : BroadcastLog) (c : SClient) : BroadcastLog :=
  if c.readyState = WS_OPEN then
    match clientSend c data with
    | Except.ok d => { log with delivered := log.delivered ++ [d] }
    | Except.error _ => { log with logged := log.logged ++ [c.cid] }
  else log

theorem broadcastToChannel_eq_fold (reg : List (String × List SClient))
    (ch data : String) (clients : List SClient) (h : mapGet reg ch = some clients) :
    broadcastToChannel reg ch data
      = clients.foldl (broadcastStep data) { delivered := [], logged := [] } := by
  unfold broadcastToChannel
  rw [h]
  rfl

theorem broadcastFold_delivered (data : String) (clients : List SClient) :
    ∀ log : BroadcastLog,
      (clients.foldl (broadcastStep data) log).delivered
        = log.delivered
          ++ (clients.filter (fun c => c.readyState == WS_OPEN && !c.sendFails)).map
              (fun c => (c.cid, data)) := by
  induction clients with
  | nil => intro log; simp
  | cons c cs ih =>
      intro log
      by_cases hopen : c.readyState = WS_OPEN
      · by_cases hfail : c.sendFails = true
        · simp [List.foldl_cons, broadcastStep, clientSend, hopen, hfail, ih,
            List.filter_cons]
        · simp only [Bool.not_eq_true] at hfail
          simp [List.foldl_cons, broadcastStep, clientSend, hopen, hfail, ih,
            List.filter_cons]
      · simp [List.foldl_cons, broadcastStep, hopen, ih, List.filter_cons,
          beq_iff_eq]

theorem broadcastFold_logged (data : String) (clients : List SClient) :
    ∀ log : BroadcastLog,
      (clients.foldl (broadcastStep data) log).logged
        = log.logged
          ++ (clients.filter (fun c => c.readyState == WS_OPEN && c.sendFails)).map
              SClient.cid := by
  induction clients with
  | nil => intro log; simp
  | cons c cs ih =>
      intro log
      by_cases hopen : c.readyState = WS_OPEN
      · by_cases hfail : c.sendFails = true
        · simp [List.foldl_cons, broadcastStep, clientSend, hopen, hfail, ih,
            List.filter_cons]
        · simp only [Bool.not_eq_true] at hfail
          simp [List.foldl_cons, broadcastStep, clientSend, hopen, hfail, ih,
            List.filter_cons]
      · simp [List.foldl_cons, broadcastStep, hopen, ih, List.filter_cons,
          beq_iff_eq]

theorem broadcast_delivered_eq (reg : List (String × List SClient))
    (ch data : String) (clients : List SClient) (h : mapGet reg ch = some clients) :
    (broadcastToChannel reg ch data).delivered
      = (clients.filter (fun c => c.readyState == WS_OPEN && !c.sendFails)).map
          (fun c => (c.cid, data)) := by
  rw [broadcastToChannel_eq_fold reg ch data clients h, broadcastFold_delivered]
  rfl

theorem broadcast_logged_eq (reg : List (String × List SClient))
    (ch data : String) (clients : List SClient) (h : mapGet reg ch = some clients) :
    (broadcastToChannel reg ch data).logged
      = (clients.filter (fun c => c.readyState == WS_OPEN && c.sendFails)).map
          SClient.cid := by
  rw [broadcastToChannel_eq_fold reg ch data clients h, broadcastFold_logged]
  rfl

theorem broadcast_count_delivered (reg : List (String × List SClient))
    (ch data : String) (clients : List SClient) (h : mapGet reg ch = some clients)
    (i : Nat) :
    (broadcastToChannel reg ch data).delivered.count (i, data)
      = (clients.filter
          (fun c => c.readyState == WS_OPEN && !c.sendFails)).countP
          (fun c => c.cid == i) := by
  rw [broadcast_delivered_eq reg ch data clients h]
  rw [List.count, List.countP_map]
  apply List.countP_congr
  intro c _
  simp [Function.comp, Prod.ext_iff]

/-- C1: a single broadcast call delivers exactly one serialized envelope to
each open member of the named channel, delivers nothing to connections not in
that channel's member set, and is a no-op (empty log, no state touched) when
the registry has no entry for the channel. Stated over registries where the
members of the channel have pairwise-distinct identities (JS Set semantics)
and sends succeed. -/
theorem C1_broadcast_fanout (reg : List (String × List SClient)) (ch data : String) :
    (mapGet reg ch = none →
        broadcastToChannel reg ch data = { delivered := [], logged := [] })
    ∧ (∀ clients, mapGet reg ch = some clients →
        (clients.map SClient.cid).Nodup →
        (∀ c ∈ clients, c.sendFails = false) →
        (∀ c ∈ clients, c.readyState = WS_OPEN →
            (broadcastToChannel reg ch data).delivered.count (c.cid, data) = 1)
        ∧ (∀ c ∈ clients, c.readyState ≠ WS_OPEN →
            (broadcastToChannel reg ch data).delivered.count (c.cid, data) = 0)
        ∧ (∀ i, i ∉ clients.map SClient.cid →
            ∀ msg, (i, msg) ∉ (broadcastToChannel reg ch data).delivered)) := by
  constructor
  · intro hnone
    unfold broadcastToChannel
    rw [hnone]
  · intro clients hsome hnd hok
    refine ⟨?_, ?_, ?_⟩
    · intro c hc hopen
      rw [broadcast_count_delivered reg ch data clients hsome]
      have hcf : c ∈ clients.filter (fun c => c.readyState == WS_OPEN && !c.sendFails) := by
        rw [List.mem_filter]
        exact ⟨hc, by simp [hopen, hok c hc]⟩
      have hndf : ((clients.filter
          (fun c => c.readyState == WS_OPEN && !c.sendFails)).map SClient.cid).Nodup :=
        hnd.sublist (List.Sublist.map _ (List.filter_sublist _))
      have hmem : c.cid ∈ (clients.filter
          (fun c => c.readyState == WS_OPEN && !c.sendFails)).map SClient.cid :=
        List.mem_map_of_mem _ hcf
      calc (clients.filter (fun c => c.readyState == WS_OPEN && !c.sendFails)).countP
            (fun c' => c'.cid == c.cid)
          = ((clients.filter
              (fun c => c.readyState == WS_OPEN && !c.sendFails)).map SClient.cid).count
              c.cid := by
            rw [List.count, List.countP_map]; rfl
        _ = 1 := List.count_eq_one_of_mem hndf hmem
    · intro c hc hnotopen
      rw [broadcast_count_delivered reg ch data clients hsome]
      rw [List.countP_eq_zero]
      intro c' hc'
      rw [List.mem_filter] at hc'
      intro hcid
      have hceq : c' = c :=
        List.inj_on_of_nodup_map hnd hc'.1 hc (by simpa using hcid)
      subst hceq
      have := hc'.2
      rw [Bool.and_eq_true, beq_iff_eq] at this
      exact hnotopen this.1
    · intro i hi msg hmem
      rw [broadcast_delivered_eq reg ch data clients hsome] at hmem
      rw [List.mem_map] at hmem
      obtain ⟨c, hc, hceq⟩ := hmem
      apply hi
      rw [List.mem_map]
      exact ⟨c, (List.mem_filter.mp hc).1, by
        have := congrArg Prod.fst hceq; simpa using this⟩

/-- Sample registry used by the witnesses: TENDER_REQUESTS has an open member
(id 1), a second open member (id 2), and a closed member (id 3); DASHBOARD_STATS
has one open member (id 4). -/
def sampleReg : List (String × List SClient) :=
  [("TENDER_REQUESTS",
      [{ cid := 1, readyState := 1, sendFails := false },
       { cid := 2, readyState := 1, sendFails := false },
       { cid := 3, readyState := 3, sendFails := false }]),
   ("DASHBOARD_STATS", [{ cid := 4, readyState := 1, sendFails := false }])]

/-- Witness for C1 at the sample registry: both open members of
TENDER_REQUESTS receive the envelope exactly once, the closed member receives
nothing, the DASHBOARD_STATS member (id 4) receives nothing, and broadcasting
to an absent channel is a no-op. -/
theorem C1_broadcast_fanout_witness :
    (broadcastToChannel sampleReg "TENDER_REQUESTS" "m").delivered.count (1, "m") = 1
    ∧ (broadcastToChannel sampleReg "TENDER_REQUESTS" "m").delivered.count (3, "m") = 0
    ∧ (∀ msg, (4, msg) ∉ (broadcastToChannel sampleReg "TENDER_REQUESTS" "m").delivered)
    ∧ broadcastToChannel sampleReg "WEBSITE_ANALYTICS" "m"
        = { delivered := [], logged := [] } := by
  have h := C1_broadcast_fanout sampleReg "TENDER_REQUESTS" "m"
  have h2 := (h.2 _ (by rfl) (by decide) (by decide))
  refine ⟨h2.1 { cid := 1, readyState := 1, sendFails := false } (by decide) rfl,
          h2.2.1 { cid := 3, readyState := 3, sendFails := false } (by decide) (by decide),
          fun msg => h2.2.2 4 (by decide) msg,
          (C1_broadcast_fanout sampleReg "WEBSITE_ANALYTICS" "m").1 (by rfl)⟩

/-- C6: broadcast never throws to its caller: every send failure is caught
inside the loop and logged, and a failure on one member does not prevent
delivery to the other open members. Stated as: the call is a total function
into a log; every open non-failing member receives the envelope no matter
which other members fail; every open failing member ends up logged, not
delivered to. -/
theorem C6_broadcast_never_throws (reg : List (String × List SClient))
    (ch data : String) (clients : List SClient)
    (hsome : mapGet reg ch = some clients) :
    (∀ c ∈ clients, c.readyState = WS_OPEN → c.sendFails = false →
        (c.cid, data) ∈ (broadcastToChannel reg ch data).delivered)
    ∧ (∀ c ∈ clients, c.readyState = WS_OPEN → c.sendFails = true →
        c.cid ∈ (broadcastToChannel reg ch data).logged)
    ∧ (broadcastToChannel reg ch data).logged
        = (clients.filter (fun c => c.readyState == WS_OPEN && c.sendFails)).map
            SClient.cid := by
  refine ⟨?_, ?_, broadcast_logged_eq reg ch data clients hsome⟩
  · intro c hc hopen hok
    rw [broadcast_delivered_eq reg ch data clients hsome]
    rw [List.mem_map]
    exact ⟨c, List.mem_filter.mpr ⟨hc, by simp [hopen, hok]⟩, rfl⟩
  · intro c hc hopen hfail
    rw [broadcast_logged_eq reg ch data clients hsome]
    rw [List.mem_map]
    exact ⟨c, List.mem_filter.mpr ⟨hc, by simp [hopen, hfail]⟩, rfl⟩

/-- Registry for the C6 witness: a failing open member (id 2) sits between two
healthy open members (ids 1 and 3) of the same channel. -/
def sampleRegFail : List (String × List SClient) :=
  [("DASHBOARD_STATS",
      [{ cid := 1, readyState := 1, sendFails := false },
       { cid := 2, readyState := 1, sendFails := true },
       { cid := 3, readyState := 1, sendFails := false }])]

/-- Witness for C6: with a failing member in the middle of the member set,
the members before and after it still receive the envelope, and the failure
is logged. -/
theorem C6_broadcast_never_throws_witness :
    (1, "m") ∈ (broadcastToChannel sampleRegFail "DASHBOARD_STATS" "m").delivered
    ∧ (3, "m") ∈ (broadcastToChannel sampleRegFail "DASHBOARD_STATS" "m").delivered
    ∧ 2 ∈ (broadcastToChannel sampleRegFail "DASHBOARD_STATS" "m").logged := by
  have h := C6_broadcast_never_throws sampleRegFail "DASHBOARD_STATS" "m" _ (by rfl)
  exact ⟨h.1 { cid := 1, readyState := 1, sendFails := false } (by decide) rfl rfl,
         h.1 { cid := 3, readyState := 1, sendFails := false } (by decide) rfl rfl,
         h.2.1 { cid := 2, readyState := 1, sendFails := true } (by decide) rfl rfl⟩

/-! ## Client connection manager (src/hooks/useWebSocket.ts) -/

/-- Default reconnectAttempts option of the hook (useWebSocket.ts line 20). -/
def reconnectAttempts : Nat := 5

/-- Backoff delay computed in ws.onclose (useWebSocket.ts line 93):
Math.min(1000 * Math.pow(2, reconnectCount), 30000). -/
def backoffDelay (attempt : Nat) : Nat := min (1000 * 2 ^ attempt) 30000

/-- Per-hook manager state relevant to reconnection: the refs and React
state of useWebSocket. pendingReconnectDelay records the delay of the timer
set by setTimeout in onclose, none when no reconnect is scheduled. -/
structure ClientMgr where
  reconnectCount : Nat
  isUnmounted : Bool
  enabled : Bool
  isConnected : Bool
  error : Option String
  pendingReconnectDelay : Option Nat
  deriving DecidableEq, Repr

/-- ws.onclose handler (useWebSocket.ts lines 84-102): return early when
unmounted; otherwise mark disconnected, then either schedule a reconnect
after the exponential backoff delay (attempts remaining) or surface the
persistent error (attempts exhausted). -/
def onClose (m : ClientMgr) : ClientMgr :=
  if m.isUnmounted then m
  else
    let m1 := { m with isConnected := false }
    if m1.isUnmounted = false ∧ m1.enabled = true
        ∧ m1.reconnectCount < reconnectAttempts then
      { m1 with pendingReconnectDelay := some (backoffDelay m1.reconnectCount) }
    else if reconnectAttempts ≤ m1.reconnectCount then
      { m1 with error := some "Maximum reconnection attempts reached" }
    else m1

/-- ws.onopen handler (useWebSocket.ts lines 62-72): mark connected, clear
the error, and reset the attempt counter to zero. -/
def onOpen (m : ClientMgr) : ClientMgr :=
  { m with isConnected := true, error := none, reconnectCount := 0 }

/-- C3: after a close of a live (mounted, enabled) manager with attempt
counter n below the maximum of 5, the scheduled reconnect delay is
min(1000 * 2^n, 30000) — the sequence 1000, 2000, 4000, 8000, 16000, then
30000 forever; a successful open resets the counter to 0; once the counter
has reached the maximum, the close handler surfaces the persistent error and
schedules no reconnect. -/
theorem C3_reconnect_backoff (m : ClientMgr) :
    (m.isUnmounted = false → m.enabled = true →
      m.reconnectCount < reconnectAttempts →
        (onClose m).pendingReconnectDelay
          = some (min (1000 * 2 ^ m.reconnectCount) 30000))
    ∧ ((List.range 6).map backoffDelay = [1000, 2000, 4000, 8000, 16000, 30000]
        ∧ ∀ n, 5 ≤ n → backoffDelay n = 30000)
    ∧ (onOpen m).reconnectCount = 0
    ∧ (m.isUnmounted = false → reconnectAttempts ≤ m.reconnectCount →
        (onClose m).error = some "Maximum reconnection attempts reached"
        ∧ (onClose m).pendingReconnectDelay = m.pendingReconnectDelay) := by
  refine ⟨?_, ⟨by decide, ?_⟩, rfl, ?_⟩
  · intro hu he hlt
    simp [onClose, hu, he, hlt, backoffDelay]
  · intro n hn
    have h32 : (32 : Nat) ≤ 2 ^ n := by
      calc (32 : Nat) = 2 ^ 5 := by norm_num
        _ ≤ 2 ^ n := Nat.pow_le_pow_right (by norm_num) hn
    have : (30000 : Nat) ≤ 1000 * 2 ^ n := by
      calc (30000 : Nat) ≤ 1000 * 32 := by norm_num
        _ ≤ 1000 * 2 ^ n := Nat.mul_le_mul_left 1000 h32
    simp [backoffDelay, Nat.min_eq_right this]
  · intro hu hge
    have hnlt : ¬ m.reconnectCount < reconnectAttempts := Nat.not_lt.mpr hge
    simp [onClose, hu, hnlt, hge]

/-- Witness for C3: a mounted, enabled manager with counter 2 schedules a
4000 ms reconnect; one with counter 5 surfaces the persistent error and
schedules nothing. -/
theorem C3_reconnect_backoff_witness :
    (onClose { reconnectCount := 2, isUnmounted := false, enabled := true,
               isConnected := true, error := none,
               pendingReconnectDelay := none }).pendingReconnectDelay = some 4000
    ∧ (onClose { reconnectCount := 5, isUnmounted := false, enabled := true,
                 isConnected := true, error := none,
                 pendingReconnectDelay := none }).error
        = some "Maximum reconnection attempts reached" := by
  have h1 := C3_reconnect_backoff
    { reconnectCount := 2, isUnmounted := false, enabled := true,
      isConnected := true, error := none, pendingReconnectDelay := none }
  have h2 := C3_reconnect_backoff
    { reconnectCount := 5, isUnmounted := false, enabled := true,
      isConnected := true, error := none, pendingReconnectDelay := none }
  exact ⟨(h1.1 rfl rfl (by decide)).trans (by decide),
         (h2.2.2.2 rfl (by decide)).1⟩

/-- A shared physical client connection as stored in the module-level
activeConnections map: the WebSocket identity and the single handler held by
its onmessage property. ws.onmessage is assigned only in the branch that
constructs a new WebSocket (useWebSocket.ts lines 58-82), so it always holds
the creating subscriber's callback. -/
structure ClientConn where
  wsId : Nat
  onmessageOwner : Option Nat
  deriving DecidableEq, Repr

/-- The module-level shared state of useWebSocket: activeConnections
(useWebSocket.ts line 16) plus a counter to mint WebSocket identities. -/
structure ClientRegistry where
  activeConnections : List (String × ClientConn)
  nextWsId : Nat
  deriving DecidableEq, Repr

/-- The connect path of useWebSocket (lines 35-60) run by subscriber sid:
when activeConnections already has a connection for the channel, reuse it
(wsRef := existing; no handler is attached); otherwise construct a WebSocket,
store it in activeConnections, and install sid's callback as its onmessage
handler. Returns the new shared state and the wsRef held by sid. -/
def connectClient (st : ClientRegistry) (channel : String) (sid : Nat) :
    ClientRegistry × Option Nat :=
  match mapGet st.activeConnections channel with
  | some conn => (st, some conn.wsId)
  | none =>
      let conn : ClientConn := { wsId := st.nextWsId, onmessageOwner := some sid }
      ({ activeConnections := st.activeConnections ++ [(channel, conn)],
         nextWsId := st.nextWsId + 1 }, some conn.wsId)

/-- Subscriber callbacks invoked when a message arrives on the channel's
physical connection: exactly the handler held by ws.onmessage. -/
def dispatchMessage (st : ClientRegistry) (channel : String) : List Nat :=
  match mapGet st.activeConnections channel with
  | some conn =>
      match conn.onmessageOwner with
      | some sid => [sid]
      | none => []
  | none => []

/-- useEffect cleanup (useWebSocket.ts lines 148-163): when the unmounting
subscriber holds a wsRef, the socket is closed and its registry entry removed
only if Object.values(activeConnections) does not contain that socket;
otherwise nothing is closed. Returns the new shared state and the list of
sockets closed. -/
def cleanupClient (st : ClientRegistry) (channel : String) (wsRef : Option Nat) :
    ClientRegistry × List Nat :=
  match wsRef with
  | none => (st, [])
  | some w =>
      if (st.activeConnections.map (fun e => e.snd.wsId)).contains w then (st, [])
      else
        ({ st with activeConnections :=
            st.activeConnections.filter (fun e => e.fst != channel) }, [w])

/-- Client state after subscriber 0 connects to TENDER_REQUESTS (creating
ws 0) and subscriber 1 then connects to the same channel (reusing ws 0). -/
def twoSubscriberSt : ClientRegistry :=
  (connectClient (connectClient { activeConnections := [], nextWsId := 0 }
      "TENDER_REQUESTS" 0).1 "TENDER_REQUESTS" 1).1

/-- C4 (code bug, evaluated at the failing input): after subscribers 0 and 1
both subscribe to TENDER_REQUESTS, a broadcast envelope arriving on the
shared connection is dispatched only to subscriber 0's callback — the reuse
branch of connect never attaches the second subscriber's callback, so
subscriber 1 receives the envelope zero times, not exactly once. -/
theorem C4_second_subscriber_missed :
    dispatchMessage twoSubscriberSt "TENDER_REQUESTS" = [0]
    ∧ (dispatchMessage twoSubscriberSt "TENDER_REQUESTS").count 1 = 0
    ∧ (connectClient { activeConnections := [], nextWsId := 0 }
        "TENDER_REQUESTS" 0).1.activeConnections
        = [("TENDER_REQUESTS", { wsId := 0, onmessageOwner := some 0 })]
    ∧ twoSubscriberSt.activeConnections
        = [("TENDER_REQUESTS", { wsId := 0, onmessageOwner := some 0 })] := by
  refine ⟨rfl, rfl, rfl, rfl⟩

/-- C5 (code bug, general form): while a socket is recorded in
activeConnections, the useEffect cleanup never closes it — the check
compares wsRef.current against Object.values(activeConnections), which still
contains the very socket being released, so even the last subscriber's
unmount leaves the connection open and its registry entry in place. -/
theorem C5_cleanup_never_closes (st : ClientRegistry) (channel : String) (w : Nat)
    (h : w ∈ st.activeConnections.map (fun e => e.snd.wsId)) :
    cleanupClient st channel (some w) = (st, []) := by
  show (if (st.activeConnections.map (fun e => e.snd.wsId)).contains w then (st, [])
      else ({ st with activeConnections :=
          st.activeConnections.filter (fun e => e.fst != channel) }, [w]))
    = (st, [])
  have hc : (st.activeConnections.map (fun e => e.snd.wsId)).contains w := by
    rw [List.contains_eq_any_beq, List.any_eq_true]
    exact ⟨w, h, by simp⟩
  rw [if_pos hc]

/-- Witness for C5 at the failing input: the sole subscriber 0 of
TENDER_REQUESTS unmounts while holding ws 0; cleanup closes nothing and the
connection stays registered. -/
theorem C5_cleanup_never_closes_witness :
    cleanupClient
        (connectClient { activeConnections := [], nextWsId := 0 }
          "TENDER_REQUESTS" 0).1 "TENDER_REQUESTS" (some 0)
      = ((connectClient { activeConnections := [], nextWsId := 0 }
          "TENDER_REQUESTS" 0).1, []) := by
  exact C5_cleanup_never_closes _ "TENDER_REQUESTS" 0 (by decide)

/-! ## Server gateway, registry, and heartbeat (server/index.js) -/

/-- The fixed channel whitelist (server/index.js line 40). -/
def validChannels : List String :=
  ["DASHBOARD_STATS", "TENDER_REQUESTS", "WEBSITE_ANALYTICS"]

/-- Separator split over a character list, as JS String.prototype.split with
a one-character separator: always returns at least one (possibly empty)
piece. -/
def splitCharAux (sep : Char) : List Char → List Char → List (List Char)
  | [], acc => [acc.reverse]
  | c :: cs, acc =>
      if c = sep then acc.reverse :: splitCharAux sep cs []
      else splitCharAux sep cs (c :: acc)

/-- JS str.split(sep) for a one-character separator. -/
def jsSplit (s : String) (sep : Char) : List String :=
  (splitCharAux sep s.toList []).map List.asString

/-- Channel-name parsing (server/index.js lines 33-34): drop the query
string, split the path on '/', take segment 1, substituting "default" when
that segment is missing or empty (the JS `|| 'default'`). -/
def parseChannel (url : String) : String :=
  let path := (jsSplit url '?').headD ""
  let urlParts := jsSplit path '/'
  let seg := urlParts.getD 1 ""
  if seg = "" then "default" else seg

/-- JS Map.set on an existing key of an association list. -/
def mapSet {α : Type} (m : List (String × α)) (k : String) (v : α) :
    List (String × α) :=
  m.map (fun e => if e.fst == k then (k, v) else e)

/-- JS Map.delete on an association list. -/
def mapDelete {α : Type} (m : List (String × α)) (k : String) :
    List (String × α) :=
  m.filter (fun e => e.fst != k)

/-- JS Set.add: append if absent. -/
def setAdd (s : List Nat) (x : Nat) : List Nat :=
  if s.contains x then s else s ++ [x]

/-- JS Set.delete: remove the element. -/
def setDelete (s : List Nat) (x : Nat) : List Nat := s.erase x

/-- Registration into the hub (server/index.js lines 47-53): create the
channel entry if absent, then add the connection to its member set. -/
def registerConn (reg : List (String × List Nat)) (ch : String) (cid : Nat) :
    List (String × List Nat) :=
  let reg1 := if (mapGet reg ch).isSome then reg else reg ++ [(ch, ([] : List Nat))]
  mapSet reg1 ch (setAdd ((mapGet reg1 ch).getD []) cid)

/-- The close handler's registry update (server/index.js lines 90-97):
wsConnections.get(channel)?.delete(ws), then delete the channel entry if its
size is now 0 (the optional chain makes both steps no-ops when the entry is
absent). -/
def unregisterConn (reg : List (String × List Nat)) (ch : String) (cid : Nat) :
    List (String × List Nat) :=
  let reg1 :=
    match mapGet reg ch with
    | none => reg
    | some members => mapSet reg ch (setDelete members cid)
  match mapGet reg1 ch with
  | none => reg1
  | some members => if members.length = 0 then mapDelete reg1 ch else reg1

/-- Server-side per-connection metadata set by the gateway. -/
structure SConn where
  channel : String
  isAlive : Bool
  isAuthenticated : Bool
  deriving DecidableEq, Repr

/-- Observable server state: the wsConnections registry, the connected
sockets with their metadata (wss.clients), envelopes sent to clients, close
calls issued, terminated sockets, and transport pings sent. -/
structure ServerState where
  wsConnections : List (String × List Nat)
  conns : List (Nat × SConn)
  sent : List (Nat × String)
  closes : List (Nat × Nat × String)
  terminated : List Nat
  pinged : List Nat
  deriving DecidableEq, Repr

/-- The empty server state. -/
def emptyServer : ServerState :=
  { wsConnections := [], conns := [], sent := [], closes := [],
    terminated := [], pinged := [] }

/-- Outcome of the connection handler for one socket. -/
inductive ConnOutcome
  | rejected
  | accepted
  deriving DecidableEq, Repr

/-- The connection handler (server/index.js lines 31-61): parse the channel
name; when it is not whitelisted, close the socket with 1008 'Invalid
channel' and register nothing; otherwise register it (creating the channel
entry if needed), record its metadata with isAlive true, and send the
CONNECTED acknowledgement. -/
def handleConnection (s : ServerState) (cid : Nat) (url : String) :
    ServerState × ConnOutcome :=
  let channel := parseChannel url
  if validChannels.contains channel then
    ({ s with
        wsConnections := registerConn s.wsConnections channel cid,
        conns := s.conns
          ++ [(cid, { channel := channel, isAlive := true,
                      isAuthenticated := false })],
        sent := s.sent ++ [(cid, "CONNECTED")] }, ConnOutcome.accepted)
  else
    ({ s with closes := s.closes ++ [(cid, 1008, "Invalid channel")] },
      ConnOutcome.rejected)

/-- An inbound client message as the message handler sees it: either
JSON.parse throws (malformed) or it yields an envelope with a type field. -/
inductive InMsg
  | malformed
  | envelope (type : String)
  deriving DecidableEq, Repr

/-- The message handler (server/index.js lines 64-87): a parse failure is
logged and dropped; a PING envelope gets a PONG reply and marks the
connection alive; an AUTH envelope marks it authenticated and gets an
AUTH_SUCCESS reply; every other envelope type is ignored. Returns the updated
connection metadata and the reply envelope types sent. -/
def handleMessage (c : SConn) (m : InMsg) : SConn × List String :=
  match m with
  | InMsg.malformed => (c, [])
  | InMsg.envelope t =>
      if t = "PING" then ({ c with isAlive := true }, ["PONG"])
      else if t = "AUTH" then ({ c with isAuthenticated := true }, ["AUTH_SUCCESS"])
      else (c, [])

/-- Lookup of a connected socket's metadata. -/
def getConn (conns : List (Nat × SConn)) (cid : Nat) : Option SConn :=
  (conns.find? (fun e => e.fst == cid)).map Prod.snd

/-- Pointwise update of a connected socket's metadata. -/
def updateConn (conns : List (Nat × SConn)) (cid : Nat) (f : SConn → SConn) :
    List (Nat × SConn) :=
  conns.map (fun e => if e.fst == cid then (e.fst, f e.snd) else e)

/-- Events driving the server: a socket connecting, an inbound message, a
transport pong frame, a socket close, and the 30-second heartbeat sweep. -/
inductive ServerEvent
  | connect (cid : Nat) (url : String)
  | message (cid : Nat) (m : InMsg)
  | pongFrame (cid : Nat)
  | closeEvt (cid : Nat)
  | sweep
  deriving DecidableEq, Repr

/-- Clearing the liveness flag of one connection entry, as the sweep does to
every surviving connection. -/
def clearAlive (e : Nat × SConn) : Nat × SConn :=
  (e.fst, { e.snd with isAlive := false })

/-- One step of the server. connect runs the connection handler; message runs
the message handler of the addressed socket; pongFrame runs the pong listener
(ws.isAlive = true, lines 101-103); closeEvt runs the close handler (remove
from the channel's set, delete the entry when empty, lines 90-97); sweep runs
the 30-second interval (lines 127-136): sockets whose isAlive is false are
terminated (their close handlers then unregister them), the rest get their
flag cleared and a ping. -/
def stepServer (s : ServerState) (e : ServerEvent) : ServerState :=
  match e with
  | ServerEvent.connect cid url => (handleConnection s cid url).1
  | ServerEvent.message cid m =>
      match getConn s.conns cid with
      | none => s
      | some c =>
          let r := handleMessage c m
          { s with conns := updateConn s.conns cid (fun _ => r.1),
                   sent := s.sent ++ r.2.map (fun t => (cid, t)) }
  | ServerEvent.pongFrame cid =>
      { s with conns := updateConn s.conns cid (fun c => { c with isAlive := true }) }
  | ServerEvent.closeEvt cid =>
      match getConn s.conns cid with
      | none => s
      | some c =>
          { s with wsConnections := unregisterConn s.wsConnections c.channel cid,
                   conns := s.conns.filter (fun e => e.fst != cid) }
  | ServerEvent.sweep =>
      let victims := s.conns.filter (fun e => !e.snd.isAlive)
      let keep := s.conns.filter (fun e => e.snd.isAlive)
      { s with
          wsConnections :=
            victims.foldl (fun r v => unregisterConn r v.snd.channel v.fst)
              s.wsConnections,
          conns := keep.map clearAlive,
          terminated := s.terminated ++ victims.map Prod.fst,
          pinged := s.pinged ++ keep.map Prod.fst }

/-! ## Registry lemmas -/

/-- Members of a channel, empty when the entry is absent. -/
def getMembers (reg : List (String × List Nat)) (ch : String) : List Nat :=
  (mapGet reg ch).getD []

theorem mapGet_nil {α : Type} (k : String) :
    mapGet ([] : List (String × α)) k = none := rfl

theorem mapGet_cons {α : Type} (e : String × α) (m : List (String × α)) (k : String) :
    mapGet (e :: m) k = if e.fst = k then some e.snd else mapGet m k := by
  by_cases h : e.fst = k
  · simp [mapGet, List.find?_cons, h]
  · simp [mapGet, List.find?_cons, h]

theorem mapSet_cons {α : Type} (e : String × α) (m : List (String × α))
    (k : String) (v : α) :
    mapSet (e :: m) k v = (if e.fst = k then (k, v) else e) :: mapSet m k v := by
  by_cases h : e.fst = k
  · simp [mapSet, h]
  · simp [mapSet, h]

theorem mapDelete_cons {α : Type} (e : String × α) (m : List (String × α))
    (k : String) :
    mapDelete (e :: m) k
      = if e.fst = k then mapDelete m k else e :: mapDelete m k := by
  by_cases h : e.fst = k
  · simp [mapDelete, List.filter_cons, h]
  · simp [mapDelete, List.filter_cons, h]

theorem mapGet_eq_none_iff {α : Type} (m : List (String × α)) (k : String) :
    mapGet m k = none ↔ k ∉ m.map Prod.fst := by
  induction m with
  | nil => simp [mapGet_nil]
  | cons e m ih =>
      rw [mapGet_cons]
      by_cases h : e.fst = k
      · simp [h]
      · have hk : ¬ k = e.fst := fun hke => h hke.symm
        simp [h, hk, ih]

theorem mapGet_append {α : Type} (m l : List (String × α)) (k : String) :
    mapGet (m ++ l) k = match mapGet m k with
      | some v => some v
      | none => mapGet l k := by
  induction m with
  | nil => simp [mapGet_nil]
  | cons e m ih =>
      rw [List.cons_append, mapGet_cons, mapGet_cons]
      by_cases h : e.fst = k
      · simp [h]
      · simp [h, ih]

theorem mapGet_set_self {α : Type} (m : List (String × α)) (k : String) (v : α) :
    mapGet (mapSet m k v) k = (mapGet m k).map (fun _ => v) := by
  induction m with
  | nil => simp [mapGet_nil, mapSet]
  | cons e m ih =>
      by_cases h : e.fst = k
      · simp [mapSet_cons, mapGet_cons, h]
      · simp [mapSet_cons, mapGet_cons, h, ih]

theorem mapGet_set_ne {α : Type} (m : List (String × α)) (k k' : String) (v : α)
    (h : k' ≠ k) : mapGet (mapSet m k v) k' = mapGet m k' := by
  have hkk : ¬ (k = k') := fun hh => h hh.symm
  induction m with
  | nil => simp [mapGet_nil, mapSet]
  | cons e m ih =>
      by_cases h1 : e.fst = k
      · have he' : ¬ (e.fst = k') := fun hh => hkk (h1.symm.trans hh)
        simp [mapSet_cons, mapGet_cons, h1, hkk, he', h, ih]
      · by_cases h2 : e.fst = k'
        · simp [mapSet_cons, mapGet_cons, h1, h2, hkk, h]
        · simp [mapSet_cons, mapGet_cons, h1, h2, hkk, h, ih]

theorem mapGet_delete_self {α : Type} (m : List (String × α)) (k : String) :
    mapGet (mapDelete m k) k = none := by
  rw [mapGet_eq_none_iff]
  intro hmem
  rw [List.mem_map] at hmem
  obtain ⟨e, he, hek⟩ := hmem
  rw [mapDelete, List.mem_filter] at he
  have := he.2
  rw [bne_iff_ne] at this
  exact this hek

theorem mapGet_delete_ne {α : Type} (m : List (String × α)) (k k' : String)
    (h : k' ≠ k) : mapGet (mapDelete m k) k' = mapGet m k' := by
  have hkk : ¬ (k = k') := fun hh => h hh.symm
  induction m with
  | nil => simp [mapGet_nil, mapDelete]
  | cons e m ih =>
      by_cases h1 : e.fst = k
      · have he' : ¬ (e.fst = k') := fun hh => h (hh.symm.trans h1)
        simp [mapDelete_cons, mapGet_cons, h1, he', hkk, h, ih]
      · by_cases h2 : e.fst = k'
        · simp [mapDelete_cons, mapGet_cons, h1, h2, hkk, h]
        · simp [mapDelete_cons, mapGet_cons, h1, h2, hkk, h, ih]

theorem keys_mapSet {α : Type} (m : List (String × α)) (k : String) (v : α) :
    (mapSet m k v).map Prod.fst = m.map Prod.fst := by
  induction m with
  | nil => rfl
  | cons e m ih =>
      by_cases h : e.fst = k
      · simp [mapSet_cons, h, ih]
      · simp [mapSet_cons, h, ih]

theorem mem_mapSet {α : Type} (m : List (String × α)) (k : String) (v : α)
    (e : String × α) (he : e ∈ mapSet m k v) : e ∈ m ∨ e = (k, v) := by
  rw [mapSet, List.mem_map] at he
  obtain ⟨e0, he0, heq⟩ := he
  by_cases h : e0.fst = k
  · right; rw [← heq, if_pos (by simpa using h)]
  · left; rw [← heq, if_neg (by simpa using h)]; exact he0

theorem mem_mapDelete {α : Type} (m : List (String × α)) (k : String)
    (e : String × α) (he : e ∈ mapDelete m k) : e ∈ m :=
  (List.mem_filter.mp he).1

theorem keys_mapDelete_sublist {α : Type} (m : List (String × α)) (k : String) :
    ((mapDelete m k).map Prod.fst).Sublist (m.map Prod.fst) :=
  (List.filter_sublist m).map Prod.fst

theorem mapSet_append {α : Type} (m l : List (String × α)) (k : String) (v : α) :
    mapSet (m ++ l) k v = mapSet m k v ++ mapSet l k v := by
  simp [mapSet]

theorem mapSet_of_not_mem {α : Type} (m : List (String × α)) (k : String) (v : α)
    (h : k ∉ m.map Prod.fst) : mapSet m k v = m := by
  induction m with
  | nil => rfl
  | cons e m ih =>
      simp only [List.map_cons, List.mem_cons, not_or] at h
      have he : ¬ (e.fst = k) := fun hh => h.1 hh.symm
      rw [mapSet_cons, if_neg he, ih h.2]

theorem mapGet_mem {α : Type} {m : List (String × α)} {k : String} {v : α}
    (h : mapGet m k = some v) : (k, v) ∈ m := by
  induction m with
  | nil => simp [mapGet_nil] at h
  | cons e m ih =>
      rw [mapGet_cons] at h
      by_cases he : e.fst = k
      · rw [if_pos he] at h
        have hv : e.snd = v := Option.some_injective _ h
        rw [← he, ← hv]
        exact List.mem_cons_self e m
      · rw [if_neg he] at h
        exact List.mem_cons_of_mem e (ih h)

theorem mapSet_self_eq {α : Type} (m : List (String × α)) (k : String) (v : α)
    (hnd : (m.map Prod.fst).Nodup) (h : mapGet m k = some v) : mapSet m k v = m := by
  induction m with
  | nil => simp [mapGet_nil] at h
  | cons e m ih =>
      rw [mapGet_cons] at h
      simp only [List.map_cons, List.nodup_cons] at hnd
      by_cases he : e.fst = k
      · rw [if_pos he] at h
        have hv : e.snd = v := Option.some_injective _ h
        rw [mapSet_cons, if_pos he, mapSet_of_not_mem m k v (he ▸ hnd.1), ← he, ← hv]
      · rw [if_neg he] at h
        rw [mapSet_cons, if_neg he, ih hnd.2 h]

/-- Well-formed registry: channel keys are pairwise distinct, every entry is
nonempty, and every member set has no duplicates (JS Map and Set semantics). -/
def RegWF (reg : List (String × List Nat)) : Prop :=
  (reg.map Prod.fst).Nodup ∧ ∀ e ∈ reg, e.snd ≠ [] ∧ e.snd.Nodup

theorem not_mem_erase_self (l : List Nat) (a : Nat) (h : l.Nodup) : a ∉ l.erase a := by
  intro hmem
  have h1 : l.count a ≤ 1 := List.nodup_iff_count_le_one.mp h a
  have h2 : (l.erase a).count a = l.count a - 1 := List.count_erase_self a l
  have h3 : 0 < (l.erase a).count a := List.count_pos_iff.mpr hmem
  omega

theorem registerConn_eq_existing (reg : List (String × List Nat)) (ch : String)
    (cid : Nat) (members : List Nat) (h : mapGet reg ch = some members) :
    registerConn reg ch cid = mapSet reg ch (setAdd members cid) := by
  simp [registerConn, h]

theorem registerConn_eq_fresh (reg : List (String × List Nat)) (ch : String)
    (cid : Nat) (h : mapGet reg ch = none) :
    registerConn reg ch cid = reg ++ [(ch, [cid])] := by
  have hk : ch ∉ reg.map Prod.fst := (mapGet_eq_none_iff reg ch).mp h
  have h2 : mapGet (reg ++ [(ch, ([] : List Nat))]) ch = some [] := by
    rw [mapGet_append, h, mapGet_cons]
    simp
  have h3 : registerConn reg ch cid
      = mapSet (reg ++ [(ch, [])]) ch (setAdd [] cid) := by
    simp [registerConn, h, h2]
  rw [h3, mapSet_append, mapSet_of_not_mem reg ch _ hk]
  simp [mapSet, setAdd]

theorem registerConn_wf (reg : List (String × List Nat)) (ch : String) (cid : Nat)
    (h : RegWF reg) : RegWF (registerConn reg ch cid) := by
  obtain ⟨hkeys, hent⟩ := h
  cases hreg : mapGet reg ch with
  | none =>
      rw [registerConn_eq_fresh reg ch cid hreg]
      constructor
      · rw [List.map_append, List.nodup_append]
        refine ⟨hkeys, by simp, ?_⟩
        intro a ha hb
        simp only [List.map_cons, List.map_nil, List.mem_singleton] at hb
        subst hb
        exact (mapGet_eq_none_iff reg _).mp hreg ha
      · intro e he
        rw [List.mem_append] at he
        rcases he with he | he
        · exact hent e he
        · simp only [List.mem_singleton] at he
          subst he
          exact ⟨by simp, by simp⟩
  | some members =>
      rw [registerConn_eq_existing reg ch cid members hreg]
      have hm := hent _ (mapGet_mem hreg)
      constructor
      · rw [keys_mapSet]; exact hkeys
      · intro e he
        rcases mem_mapSet _ _ _ _ he with he | he
        · exact hent e he
        · subst he
          by_cases hc : members.contains cid
          · refine ⟨?_, ?_⟩ <;> simp only [setAdd, if_pos hc]
            · exact hm.1
            · exact hm.2
          · have hcm : cid ∉ members := by simpa using hc
            refine ⟨?_, ?_⟩ <;> simp only [setAdd, if_neg hc]
            · simp
            · rw [List.nodup_append]
              exact ⟨hm.2, by simp, by
                intro a ha hb
                simp only [List.mem_singleton] at hb
                subst hb
                exact hcm ha⟩

theorem registerConn_creates (reg : List (String × List Nat)) (ch : String)
    (cid : Nat) :
    ∃ members, mapGet (registerConn reg ch cid) ch = some members
      ∧ cid ∈ members := by
  cases hreg : mapGet reg ch with
  | none =>
      refine ⟨[cid], ?_, by simp⟩
      rw [registerConn_eq_fresh reg ch cid hreg, mapGet_append, hreg, mapGet_cons]
      simp
  | some members =>
      refine ⟨setAdd members cid, ?_, ?_⟩
      · rw [registerConn_eq_existing reg ch cid members hreg, mapGet_set_self, hreg]
        rfl
      · by_cases hc : members.contains cid
        · simp only [setAdd, if_pos hc]
          simpa using hc
        · simp only [setAdd, if_neg hc]
          simp

theorem unregisterConn_absent (reg : List (String × List Nat)) (ch : String)
    (cid : Nat) (h : mapGet reg ch = none) : unregisterConn reg ch cid = reg := by
  simp [unregisterConn, h]

theorem unregisterConn_present (reg : List (String × List Nat)) (ch : String)
    (cid : Nat) (members : List Nat) (h : mapGet reg ch = some members) :
    unregisterConn reg ch cid
      = if (members.erase cid).length = 0
          then mapDelete (mapSet reg ch (members.erase cid)) ch
          else mapSet reg ch (members.erase cid) := by
  have h2 : mapGet (mapSet reg ch (members.erase cid)) ch
      = some (members.erase cid) := by
    rw [mapGet_set_self, h]; rfl
  simp [unregisterConn, setDelete, h, h2]

theorem unregisterConn_wf (reg : List (String × List Nat)) (ch : String)
    (cid : Nat) (h : RegWF reg) : RegWF (unregisterConn reg ch cid) := by
  obtain ⟨hkeys, hent⟩ := h
  cases hreg : mapGet reg ch with
  | none => rw [unregisterConn_absent reg ch cid hreg]; exact ⟨hkeys, hent⟩
  | some members =>
      rw [unregisterConn_present reg ch cid members hreg]
      have hm := hent _ (mapGet_mem hreg)
      by_cases hlen : (members.erase cid).length = 0
      · rw [if_pos hlen]
        constructor
        · have h2 : ((mapSet reg ch (members.erase cid)).map Prod.fst).Nodup := by
            rw [keys_mapSet]; exact hkeys
          exact h2.sublist (keys_mapDelete_sublist _ ch)
        · intro e he
          have hne : e.fst ≠ ch := by
            have := (List.mem_filter.mp he).2
            simpa [bne_iff_ne] using this
          rcases mem_mapSet _ _ _ _ (mem_mapDelete _ _ _ he) with h3 | h3
          · exact hent e h3
          · exact absurd (congrArg Prod.fst h3) (by simpa using hne)
      · rw [if_neg hlen]
        constructor
        · rw [keys_mapSet]; exact hkeys
        · intro e he
          rcases mem_mapSet _ _ _ _ he with h3 | h3
          · exact hent e h3
          · subst h3
            refine ⟨fun hnil => hlen ?_, hm.2.sublist (List.erase_sublist _ _)⟩
            rw [show members.erase cid = [] from hnil]
            rfl

theorem unregisterConn_idem (reg : List (String × List Nat)) (ch : String)
    (cid : Nat) (h : RegWF reg) :
    unregisterConn (unregisterConn reg ch cid) ch cid
      = unregisterConn reg ch cid := by
  obtain ⟨hkeys, hent⟩ := h
  cases hreg : mapGet reg ch with
  | none =>
      rw [unregisterConn_absent reg ch cid hreg,
        unregisterConn_absent reg ch cid hreg]
  | some members =>
      have hnd := (hent _ (mapGet_mem hreg)).2
      rw [unregisterConn_present reg ch cid members hreg]
      by_cases hlen : (members.erase cid).length = 0
      · rw [if_pos hlen]
        exact unregisterConn_absent _ ch cid (mapGet_delete_self _ ch)
      · rw [if_neg hlen]
        have hget : mapGet (mapSet reg ch (members.erase cid)) ch
            = some (members.erase cid) := by
          rw [mapGet_set_self, hreg]; rfl
        rw [unregisterConn_present _ ch cid _ hget]
        have herase2 : (members.erase cid).erase cid = members.erase cid :=
          List.erase_of_not_mem (not_mem_erase_self members cid hnd)
        rw [herase2, if_neg hlen]
        apply mapSet_self_eq
        · rw [keys_mapSet]; exact hkeys
        · exact hget

/-- Operations the server performs on the registry: a connection registering
under a channel, and the close handler's unregistration. -/
inductive RegOp
  | add (ch : String) (cid : Nat)
  | remove (ch : String) (cid : Nat)
  deriving DecidableEq, Repr

/-- Apply one registry operation. -/
def applyRegOp (reg : List (String × List Nat)) : RegOp → List (String × List Nat)
  | RegOp.add ch cid => registerConn reg ch cid
  | RegOp.remove ch cid => unregisterConn reg ch cid

/-- The registry obtained from the empty initial registry by a sequence of
register/unregister operations: exactly the reachable registry states. -/
def runRegOps (ops : List RegOp) : List (String × List Nat) :=
  ops.foldl applyRegOp []

theorem runRegOps_wf (ops : List RegOp) : RegWF (runRegOps ops) := by
  suffices h : ∀ reg, RegWF reg → RegWF (ops.foldl applyRegOp reg) by
    exact h [] ⟨List.nodup_nil, by simp⟩
  induction ops with
  | nil => intro reg h; exact h
  | cons op ops ih =>
      intro reg h
      rw [List.foldl_cons]
      apply ih
      cases op with
      | add ch cid => exact registerConn_wf reg ch cid h
      | remove ch cid => exact unregisterConn_wf reg ch cid h

/-- C8: in every reachable registry state a channel entry has at least one
member (entry exists iff nonempty); registration puts the connection into the
channel's entry, creating it when absent; the close handler's unregistration
removes the connection and deletes the entry exactly when it empties; and
unregistration is idempotent. -/
theorem C8_registry_invariant :
    (∀ ops : List RegOp, ∀ e ∈ runRegOps ops, e.snd ≠ [])
    ∧ (∀ reg ch cid,
        ∃ members, mapGet (registerConn reg ch cid) ch = some members
          ∧ cid ∈ members)
    ∧ (∀ reg ch cid members, RegWF reg → mapGet reg ch = some members →
        mapGet (unregisterConn reg ch cid) ch
          = if (members.erase cid).length = 0 then none
            else some (members.erase cid))
    ∧ (∀ reg ch cid, RegWF reg →
        unregisterConn (unregisterConn reg ch cid) ch cid
          = unregisterConn reg ch cid) := by
  refine ⟨?_, registerConn_creates, ?_, unregisterConn_idem⟩
  · intro ops e he
    exact ((runRegOps_wf ops).2 e he).1
  · intro reg ch cid members hwf hreg
    rw [unregisterConn_present reg ch cid members hreg]
    by_cases hlen : (members.erase cid).length = 0
    · rw [if_pos hlen, if_pos hlen]
      exact mapGet_delete_self _ ch
    · rw [if_neg hlen, if_neg hlen, mapGet_set_self, hreg]
      rfl

/-- Witness for C8: concrete registry runs — a register/unregister pair keeps
all reachable entries nonempty; registering 7 on the empty registry creates
an entry containing it; unregistering the only member deletes the entry;
unregistering twice equals unregistering once. -/
theorem C8_registry_invariant_witness :
    (∀ e ∈ runRegOps [RegOp.add "TENDER_REQUESTS" 1,
        RegOp.add "TENDER_REQUESTS" 2, RegOp.remove "TENDER_REQUESTS" 1],
        e.snd ≠ [])
    ∧ (∃ members,
        mapGet (registerConn [] "TENDER_REQUESTS" 7) "TENDER_REQUESTS"
          = some members ∧ 7 ∈ members)
    ∧ mapGet (unregisterConn [("TENDER_REQUESTS", [7])] "TENDER_REQUESTS" 7)
        "TENDER_REQUESTS" = none
    ∧ unregisterConn
        (unregisterConn [("TENDER_REQUESTS", [7, 8])] "TENDER_REQUESTS" 7)
        "TENDER_REQUESTS" 7
      = unregisterConn [("TENDER_REQUESTS", [7, 8])] "TENDER_REQUESTS" 7 := by
  have h := C8_registry_invariant
  refine ⟨h.1 _, h.2.1 [] "TENDER_REQUESTS" 7, ?_,
    h.2.2.2 _ "TENDER_REQUESTS" 7 ⟨by decide, by decide⟩⟩
  have h3 := h.2.2.1 [("TENDER_REQUESTS", [7])] "TENDER_REQUESTS" 7 [7]
    ⟨by decide, by decide⟩ (by decide)
  exact h3.trans (by decide)

/-! ## Gateway whitelist validation -/

/-- C2 counterexample: the code's whitelist holds the uppercase names, not
the spec's lowercase ones. A connection whose parsed channel name is
"dashboard-stats" — claimed valid — is closed with 1008 and never
registered, while "DASHBOARD_STATS" — outside the claimed whitelist — is
accepted. -/
theorem C2_counterexample :
    (handleConnection emptyServer 0 "/dashboard-stats").2 = ConnOutcome.rejected
    ∧ (handleConnection emptyServer 0 "/dashboard-stats").1.wsConnections = []
    ∧ (handleConnection emptyServer 0 "/dashboard-stats").1.conns = []
    ∧ (handleConnection emptyServer 0 "/dashboard-stats").1.closes
        = [(0, 1008, "Invalid channel")]
    ∧ (handleConnection emptyServer 0 "/DASHBOARD_STATS").2
        = ConnOutcome.accepted := by
  exact ⟨rfl, rfl, rfl, rfl, rfl⟩

/-- C2 (amended): the whitelist is exactly DASHBOARD_STATS, TENDER_REQUESTS,
WEBSITE_ANALYTICS; a connection whose parsed channel name (first path
segment, query string stripped) is not in it is closed with 1008 'Invalid
channel' and no entry for it is created anywhere in the server state, and a
whitelisted name is accepted. -/
theorem C2_whitelist_validation (s : ServerState) (cid : Nat) (url : String) :
    validChannels = ["DASHBOARD_STATS", "TENDER_REQUESTS", "WEBSITE_ANALYTICS"]
    ∧ (validChannels.contains (parseChannel url) = false →
        (handleConnection s cid url).2 = ConnOutcome.rejected
        ∧ (handleConnection s cid url).1.wsConnections = s.wsConnections
        ∧ (handleConnection s cid url).1.conns = s.conns
        ∧ (handleConnection s cid url).1.closes
            = s.closes ++ [(cid, 1008, "Invalid channel")])
    ∧ (validChannels.contains (parseChannel url) = true →
        (handleConnection s cid url).2 = ConnOutcome.accepted) := by
  refine ⟨rfl, ?_, ?_⟩
  · intro h
    have h' : parseChannel url ∉ validChannels := by simpa using h
    refine ⟨?_, ?_, ?_, ?_⟩ <;> simp [handleConnection, h']
  · intro h
    have h' : parseChannel url ∈ validChannels := by simpa using h
    simp [handleConnection, h']

/-- Witness for C2: a connection for the unknown channel name bogus is
rejected with a 1008 close, and one for TENDER_REQUESTS is accepted. -/
theorem C2_whitelist_validation_witness :
    (handleConnection emptyServer 9 "/bogus").2 = ConnOutcome.rejected
    ∧ (handleConnection emptyServer 9 "/bogus").1.closes
        = [(9, 1008, "Invalid channel")]
    ∧ (handleConnection emptyServer 9 "/TENDER_REQUESTS").2
        = ConnOutcome.accepted := by
  have h := C2_whitelist_validation emptyServer 9 "/bogus"
  have h2 := h.2.1 (by decide)
  have h3 := (C2_whitelist_validation emptyServer 9 "/TENDER_REQUESTS").2.2 (by decide)
  exact ⟨h2.1, h2.2.2.2.trans (by decide), h3⟩

/-- C9: when the request path has no non-empty first segment, the gateway
substitutes the channel name "default", which is not whitelisted, so the
connection is rejected with a 1008 'Invalid channel' close and nothing is
registered: omitting the channel segment cannot bypass validation. -/
theorem C9_default_channel_rejected (s : ServerState) (cid : Nat) (url : String)
    (h : ((jsSplit ((jsSplit url '?').headD "") '/').getD 1 "") = "") :
    parseChannel url = "default"
    ∧ (handleConnection s cid url).2 = ConnOutcome.rejected
    ∧ (handleConnection s cid url).1.wsConnections = s.wsConnections
    ∧ (handleConnection s cid url).1.conns = s.conns
    ∧ (handleConnection s cid url).1.closes
        = s.closes ++ [(cid, 1008, "Invalid channel")] := by
  have hp : parseChannel url = "default" := by
    simp only [parseChannel]
    rw [if_pos h]
  have hc : parseChannel url ∉ validChannels := by
    rw [hp]; decide
  refine ⟨hp, ?_, ?_, ?_, ?_⟩ <;> simp [handleConnection, hc]

/-- Witness for C9: the bare path "/" parses to channel "default" and is
rejected with 1008, leaving the registry empty. -/
theorem C9_default_channel_rejected_witness :
    parseChannel "/" = "default"
    ∧ (handleConnection emptyServer 0 "/").2 = ConnOutcome.rejected
    ∧ (handleConnection emptyServer 0 "/").1.wsConnections = []
    ∧ (handleConnection emptyServer 0 "/").1.closes
        = [(0, 1008, "Invalid channel")] := by
  have h := C9_default_channel_rejected emptyServer 0 "/" (by decide)
  exact ⟨h.1, h.2.1, h.2.2.1.trans rfl, h.2.2.2.2.trans (by decide)⟩

/-! ## Heartbeat lemmas -/

/-- The liveness flag of a connected socket, none when not connected. -/
def connAlive (s : ServerState) (cid : Nat) : Option Bool :=
  (getConn s.conns cid).map SConn.isAlive

/-- Whether an event counts as proof of life for connection cid: a transport
pong frame from it, or a PING envelope from it. -/
def revives (cid : Nat) (e : ServerEvent) : Bool :=
  match e with
  | ServerEvent.pongFrame i => i == cid
  | ServerEvent.message i m => i == cid && m == InMsg.envelope "PING"
  | _ => false

theorem getConn_cons (e : Nat × SConn) (conns : List (Nat × SConn)) (cid : Nat) :
    getConn (e :: conns) cid
      = if e.fst = cid then some e.snd else getConn conns cid := by
  by_cases h : e.fst = cid
  · simp [getConn, List.find?_cons, h]
  · simp [getConn, List.find?_cons, h]

theorem getConn_eq_none_iff (conns : List (Nat × SConn)) (cid : Nat) :
    getConn conns cid = none ↔ cid ∉ conns.map Prod.fst := by
  induction conns with
  | nil => simp [getConn]
  | cons e conns ih =>
      rw [getConn_cons]
      by_cases h : e.fst = cid
      · simp [h]
      · have hk : ¬ cid = e.fst := fun hke => h hke.symm
        simp [h, hk, ih]

theorem getConn_mem {conns : List (Nat × SConn)} {cid : Nat} {c : SConn}
    (h : getConn conns cid = some c) : (cid, c) ∈ conns := by
  induction conns with
  | nil => simp [getConn] at h
  | cons e conns ih =>
      rw [getConn_cons] at h
      by_cases he : e.fst = cid
      · rw [if_pos he] at h
        have hv : e.snd = c := Option.some_injective _ h
        rw [← he, ← hv]
        exact List.mem_cons_self e conns
      · rw [if_neg he] at h
        exact List.mem_cons_of_mem e (ih h)

theorem updateConn_cons (e : Nat × SConn) (conns : List (Nat × SConn))
    (cid : Nat) (f : SConn → SConn) :
    updateConn (e :: conns) cid f
      = (if e.fst = cid then (e.fst, f e.snd) else e) :: updateConn conns cid f := by
  by_cases h : e.fst = cid
  · simp [updateConn, h]
  · simp [updateConn, h]

theorem getConn_update_self (conns : List (Nat × SConn)) (cid : Nat)
    (f : SConn → SConn) :
    getConn (updateConn conns cid f) cid = (getConn conns cid).map f := by
  induction conns with
  | nil => simp [getConn, updateConn]
  | cons e conns ih =>
      by_cases h : e.fst = cid
      · simp [updateConn_cons, getConn_cons, h]
      · simp [updateConn_cons, getConn_cons, h, ih]

theorem getConn_update_ne (conns : List (Nat × SConn)) (cid cid' : Nat)
    (f : SConn → SConn) (h : cid' ≠ cid) :
    getConn (updateConn conns cid f) cid' = getConn conns cid' := by
  have hkk : ¬ (cid = cid') := fun hh => h hh.symm
  induction conns with
  | nil => simp [getConn, updateConn]
  | cons e conns ih =>
      by_cases h1 : e.fst = cid
      · have he' : ¬ (e.fst = cid') := fun hh => h (hh.symm.trans h1)
        simp [updateConn_cons, getConn_cons, h1, he', hkk, h, ih]
      · by_cases h2 : e.fst = cid'
        · simp [updateConn_cons, getConn_cons, h1, h2, hkk, h]
        · simp [updateConn_cons, getConn_cons, h1, h2, hkk, h, ih]

theorem getConn_filter_ne (conns : List (Nat × SConn)) (cid cid' : Nat)
    (h : cid' ≠ cid) :
    getConn (conns.filter (fun e => e.fst != cid)) cid' = getConn conns cid' := by
  have hkk : ¬ (cid = cid') := fun hh => h hh.symm
  induction conns with
  | nil => simp [getConn]
  | cons e conns ih =>
      rw [List.filter_cons]
      by_cases h1 : e.fst = cid
      · have he' : ¬ (e.fst = cid') := fun hh => h (hh.symm.trans h1)
        simp [h1, he', hkk, h, getConn_cons, ih]
      · by_cases h2 : e.fst = cid'
        · simp [h1, h2, hkk, h, getConn_cons]
        · simp [h1, h2, hkk, h, getConn_cons, ih]

theorem keys_updateConn (conns : List (Nat × SConn)) (cid : Nat)
    (f : SConn → SConn) :
    (updateConn conns cid f).map Prod.fst = conns.map Prod.fst := by
  induction conns with
  | nil => rfl
  | cons e conns ih =>
      by_cases h : e.fst = cid
      · simp [updateConn_cons, h, ih]
      · simp [updateConn_cons, h, ih]

/-- The connection list produced by a heartbeat sweep from the surviving
(alive) connections: flags cleared. -/
theorem getConn_sweep_alive (conns : List (Nat × SConn)) (cid : Nat) (c : SConn)
    (h : getConn conns cid = some c) (ha : c.isAlive = true) :
    getConn ((conns.filter (fun e => e.snd.isAlive)).map clearAlive) cid
      = some { c with isAlive := false } := by
  induction conns with
  | nil => simp [getConn] at h
  | cons e conns ih =>
      rw [getConn_cons] at h
      rw [List.filter_cons]
      by_cases h1 : e.fst = cid
      · rw [if_pos h1] at h
        have hv : e.snd = c := Option.some_injective _ h
        rw [if_pos (by simp [hv, ha])]
        rw [List.map_cons, getConn_cons,
          if_pos (show (clearAlive e).fst = cid from h1)]
        simp [clearAlive, hv]
      · rw [if_neg h1] at h
        by_cases h2 : e.snd.isAlive
        · rw [if_pos (by simp [h2])]
          rw [List.map_cons, getConn_cons,
            if_neg (show ¬ (clearAlive e).fst = cid from h1)]
          exact ih h
        · rw [if_neg (by simp [h2])]
          exact ih h

theorem getConn_sweep_dead (conns : List (Nat × SConn)) (cid : Nat) (c : SConn)
    (hnd : (conns.map Prod.fst).Nodup)
    (h : getConn conns cid = some c) (ha : c.isAlive = false) :
    getConn ((conns.filter (fun e => e.snd.isAlive)).map clearAlive) cid
      = none := by
  rw [getConn_eq_none_iff]
  intro hmem
  simp only [List.map_map, List.mem_map, Function.comp] at hmem
  obtain ⟨e, he, hek⟩ := hmem
  have he2 := List.mem_filter.mp he
  have heq : e = (cid, c) :=
    List.inj_on_of_nodup_map hnd he2.1 (getConn_mem h) hek
  rw [heq] at he2
  have := he2.2
  simp [ha] at this

theorem mem_victims (conns : List (Nat × SConn)) (cid : Nat) (c : SConn)
    (h : getConn conns cid = some c) (ha : c.isAlive = false) :
    (cid, c) ∈ conns.filter (fun e => !e.snd.isAlive) := by
  rw [List.mem_filter]
  exact ⟨getConn_mem h, by simp [ha]⟩

theorem unregisterConn_other_channel (reg : List (String × List Nat))
    (ch ch' : String) (cid' : Nat) (h : ch ≠ ch') :
    mapGet (unregisterConn reg ch' cid') ch = mapGet reg ch := by
  cases hreg : mapGet reg ch' with
  | none => rw [unregisterConn_absent reg ch' cid' hreg]
  | some members =>
      rw [unregisterConn_present reg ch' cid' members hreg]
      by_cases hlen : (members.erase cid').length = 0
      · rw [if_pos hlen, mapGet_delete_ne _ _ _ h, mapGet_set_ne _ _ _ _ h]
      · rw [if_neg hlen, mapGet_set_ne _ _ _ _ h]

theorem unregisterConn_not_mem_self (reg : List (String × List Nat))
    (ch : String) (cid : Nat) (h : RegWF reg) :
    cid ∉ getMembers (unregisterConn reg ch cid) ch := by
  cases hreg : mapGet reg ch with
  | none =>
      rw [unregisterConn_absent reg ch cid hreg]
      simp [getMembers, hreg]
  | some members =>
      have hnd := (h.2 _ (mapGet_mem hreg)).2
      rw [unregisterConn_present reg ch cid members hreg]
      by_cases hlen : (members.erase cid).length = 0
      · rw [if_pos hlen]
        simp [getMembers, mapGet_delete_self]
      · rw [if_neg hlen]
        have hget : mapGet (mapSet reg ch (members.erase cid)) ch
            = some (members.erase cid) := by
          rw [mapGet_set_self, hreg]; rfl
        simp only [getMembers, hget, Option.getD_some]
        exact not_mem_erase_self members cid hnd

theorem unregisterConn_not_mem_mono (reg : List (String × List Nat))
    (ch ch' : String) (cid cid' : Nat) (h : cid ∉ getMembers reg ch) :
    cid ∉ getMembers (unregisterConn reg ch' cid') ch := by
  by_cases hch : ch = ch'
  · subst hch
    cases hreg : mapGet reg ch with
    | none => rw [unregisterConn_absent reg ch cid' hreg]; exact h
    | some members =>
        rw [unregisterConn_present reg ch cid' members hreg]
        simp only [getMembers, hreg, Option.getD_some] at h
        by_cases hlen : (members.erase cid').length = 0
        · rw [if_pos hlen]
          simp [getMembers, mapGet_delete_self]
        · rw [if_neg hlen]
          have hget : mapGet (mapSet reg ch (members.erase cid')) ch
              = some (members.erase cid') := by
            rw [mapGet_set_self, hreg]; rfl
          simp only [getMembers, hget, Option.getD_some]
          exact fun hmem => h (List.mem_of_mem_erase hmem)
  · rw [getMembers, unregisterConn_other_channel reg ch ch' cid' hch]
    exact h

/-- The registry fold a heartbeat sweep performs over its victims. -/
def sweepUnregister (reg : List (String × List Nat))
    (victims : List (Nat × SConn)) : List (String × List Nat) :=
  victims.foldl (fun r v => unregisterConn r v.snd.channel v.fst) reg

theorem sweepUnregister_wf (victims : List (Nat × SConn))
    (reg : List (String × List Nat)) (h : RegWF reg) :
    RegWF (sweepUnregister reg victims) := by
  induction victims generalizing reg with
  | nil => exact h
  | cons v vs ih =>
      exact ih _ (unregisterConn_wf reg v.snd.channel v.fst h)

theorem sweepUnregister_not_mem (victims : List (Nat × SConn))
    (reg : List (String × List Nat)) (cid : Nat) (ch : String)
    (h : cid ∉ getMembers reg ch) :
    cid ∉ getMembers (sweepUnregister reg victims) ch := by
  induction victims generalizing reg with
  | nil => exact h
  | cons v vs ih =>
      exact ih _ (unregisterConn_not_mem_mono reg ch v.snd.channel cid v.fst h)

theorem sweepUnregister_removes (victims : List (Nat × SConn))
    (reg : List (String × List Nat)) (cid : Nat) (c : SConn)
    (hwf : RegWF reg) (hv : (cid, c) ∈ victims) :
    cid ∉ getMembers (sweepUnregister reg victims) c.channel := by
  induction victims generalizing reg with
  | nil => simp at hv
  | cons v vs ih =>
      rcases List.mem_cons.mp hv with hv | hv
      · have hstep : cid ∉ getMembers (unregisterConn reg v.snd.channel v.fst)
            c.channel := by
          rw [← hv]
          exact unregisterConn_not_mem_self reg c.channel cid hwf
        exact sweepUnregister_not_mem vs _ cid c.channel hstep
      · exact ih _ (unregisterConn_wf reg v.snd.channel v.fst hwf) hv

theorem stepServer_regWF (s : ServerState) (e : ServerEvent)
    (h : RegWF s.wsConnections) : RegWF (stepServer s e).wsConnections := by
  cases e with
  | connect cid url =>
      by_cases hv : validChannels.contains (parseChannel url) = true
      · simp only [stepServer, handleConnection]
        rw [if_pos hv]
        exact registerConn_wf _ _ cid h
      · simp only [stepServer, handleConnection]
        rw [if_neg hv]
        exact h
  | message cid m =>
      cases hG : getConn s.conns cid with
      | none => simp only [stepServer, hG]; exact h
      | some c => simp only [stepServer, hG]; exact h
  | pongFrame cid => exact h
  | closeEvt cid =>
      cases hG : getConn s.conns cid with
      | none => simp only [stepServer, hG]; exact h
      | some c =>
          simp only [stepServer, hG]
          exact unregisterConn_wf _ _ cid h
  | sweep => exact sweepUnregister_wf _ _ h

theorem step_conns_nodup (s : ServerState) (e : ServerEvent)
    (hnd : (s.conns.map Prod.fst).Nodup)
    (hco : ∀ i u, e ≠ ServerEvent.connect i u) :
    ((stepServer s e).conns.map Prod.fst).Nodup := by
  cases e with
  | connect i u => exact absurd rfl (hco i u)
  | message cid m =>
      cases hG : getConn s.conns cid with
      | none => simp only [stepServer, hG]; exact hnd
      | some c =>
          simp only [stepServer, hG]
          rw [keys_updateConn]
          exact hnd
  | pongFrame cid =>
      simp only [stepServer]
      rw [keys_updateConn]
      exact hnd
  | closeEvt cid =>
      cases hG : getConn s.conns cid with
      | none => simp only [stepServer, hG]; exact hnd
      | some c =>
          simp only [stepServer, hG]
          exact hnd.sublist ((List.filter_sublist _).map Prod.fst)
  | sweep =>
      simp only [stepServer, List.map_map]
      have : ((s.conns.filter (fun e => e.snd.isAlive)).map
          (Prod.fst ∘ clearAlive))
          = (s.conns.filter (fun e => e.snd.isAlive)).map Prod.fst := by
        apply List.map_congr_left
        intro e _
        rfl
      rw [this]
      exact hnd.sublist ((List.filter_sublist _).map Prod.fst)

theorem handleMessage_isAlive (c : SConn) (m : InMsg)
    (h : m ≠ InMsg.envelope "PING") :
    (handleMessage c m).1.isAlive = c.isAlive := by
  cases m with
  | malformed => rfl
  | envelope t =>
      by_cases ht : t = "PING"
      · exact absurd (by rw [ht]) h
      · by_cases hau : t = "AUTH"
        · simp [handleMessage, ht, hau]
        · simp [handleMessage, ht, hau]

theorem handleMessage_channel (c : SConn) (m : InMsg) :
    (handleMessage c m).1.channel = c.channel := by
  cases m with
  | malformed => rfl
  | envelope t =>
      by_cases ht : t = "PING"
      · simp [handleMessage, ht]
      · by_cases hau : t = "AUTH"
        · simp [handleMessage, ht, hau]
        · simp [handleMessage, ht, hau]

theorem step_preserves_dead (s : ServerState) (cid : Nat) (c : SConn)
    (e : ServerEvent)
    (h : getConn s.conns cid = some c) (ha : c.isAlive = false)
    (hrev : revives cid e = false)
    (hsw : e ≠ ServerEvent.sweep)
    (hcl : e ≠ ServerEvent.closeEvt cid)
    (hco : ∀ i u, e ≠ ServerEvent.connect i u) :
    ∃ c', getConn (stepServer s e).conns cid = some c'
      ∧ c'.isAlive = false ∧ c'.channel = c.channel := by
  cases e with
  | connect i u => exact absurd rfl (hco i u)
  | sweep => exact absurd rfl hsw
  | pongFrame i =>
      have hne : cid ≠ i := by
        intro hh; subst hh; simp [revives] at hrev
      simp only [stepServer]
      rw [getConn_update_ne _ _ _ _ hne]
      exact ⟨c, h, ha, rfl⟩
  | closeEvt i =>
      have hne : cid ≠ i := fun hh => hcl (by rw [hh])
      cases hG : getConn s.conns i with
      | none => simp only [stepServer, hG]; exact ⟨c, h, ha, rfl⟩
      | some c0 =>
          simp only [stepServer, hG]
          rw [getConn_filter_ne _ _ _ hne]
          exact ⟨c, h, ha, rfl⟩
  | message i m =>
      by_cases hi : i = cid
      · subst hi
        have hm : m ≠ InMsg.envelope "PING" := by
          intro hh; subst hh; simp [revives] at hrev
        have hG : getConn s.conns i = some c := h
        simp only [stepServer, hG]
        rw [getConn_update_self, h]
        refine ⟨(handleMessage c m).1, rfl, ?_, handleMessage_channel c m⟩
        rw [handleMessage_isAlive c m hm]
        exact ha
      · have hne : cid ≠ i := fun hh => hi hh.symm
        cases hG : getConn s.conns i with
        | none => simp only [stepServer, hG]; exact ⟨c, h, ha, rfl⟩
        | some c0 =>
            simp only [stepServer, hG]
            rw [getConn_update_ne _ _ _ _ hne]
            exact ⟨c, h, ha, rfl⟩

theorem steps_preserve_dead (es : List ServerEvent) (s : ServerState)
    (cid : Nat) (ch : String)
    (hreg : RegWF s.wsConnections)
    (hnd : (s.conns.map Prod.fst).Nodup)
    (hdead : ∃ c, getConn s.conns cid = some c ∧ c.isAlive = false
        ∧ c.channel = ch)
    (hes : ∀ e ∈ es, revives cid e = false ∧ e ≠ ServerEvent.sweep
        ∧ e ≠ ServerEvent.closeEvt cid ∧ ∀ i u, e ≠ ServerEvent.connect i u) :
    RegWF (es.foldl stepServer s).wsConnections
    ∧ ((es.foldl stepServer s).conns.map Prod.fst).Nodup
    ∧ ∃ c, getConn (es.foldl stepServer s).conns cid = some c
        ∧ c.isAlive = false ∧ c.channel = ch := by
  induction es generalizing s with
  | nil => exact ⟨hreg, hnd, hdead⟩
  | cons e es ih =>
      obtain ⟨c, hc, hca, hcc⟩ := hdead
      have he := hes e (List.mem_cons_self e es)
      rw [List.foldl_cons]
      apply ih
      · exact stepServer_regWF s e hreg
      · exact step_conns_nodup s e hnd he.2.2.2
      · obtain ⟨c', h1, h2, h3⟩ :=
          step_preserves_dead s cid c e hc hca he.1 he.2.1 he.2.2.1 he.2.2.2
        exact ⟨c', h1, h2, h3.trans hcc⟩
      · intro e' he'
        exact hes e' (List.mem_cons_of_mem e he')

theorem sweep_terminated_mem (s1 : ServerState) (cid : Nat) (c1 : SConn)
    (h : getConn s1.conns cid = some c1) (ha : c1.isAlive = false) :
    cid ∈ (stepServer s1 ServerEvent.sweep).terminated := by
  simp only [stepServer]
  apply List.mem_append_right
  rw [List.mem_map]
  exact ⟨(cid, c1), mem_victims _ cid c1 h ha, rfl⟩

theorem sweep_connAlive_none (s1 : ServerState) (cid : Nat) (c1 : SConn)
    (hnd : (s1.conns.map Prod.fst).Nodup)
    (h : getConn s1.conns cid = some c1) (ha : c1.isAlive = false) :
    connAlive (stepServer s1 ServerEvent.sweep) cid = none := by
  simp only [stepServer, connAlive]
  rw [getConn_sweep_dead _ cid c1 hnd h ha]
  rfl

theorem sweep_removes_member (s1 : ServerState) (cid : Nat) (c1 : SConn)
    (hreg : RegWF s1.wsConnections)
    (h : getConn s1.conns cid = some c1) (ha : c1.isAlive = false) :
    cid ∉ getMembers (stepServer s1 ServerEvent.sweep).wsConnections
      c1.channel :=
  sweepUnregister_removes _ _ cid c1 hreg (mem_victims _ cid c1 h ha)

/-- Server state after one connection (id 0) joins TENDER_REQUESTS. -/
def sampleServer : ServerState :=
  (handleConnection emptyServer 0 "/TENDER_REQUESTS").1

/-- C7: heartbeat dynamics under the step relation of sweeps, pong receipts,
and inbound messages. A sweep that finds the liveness flag true clears it and
pings; if no proof of life from the connection (transport pong or PING
envelope) arrives before the next sweep, that next sweep terminates the
connection, removes it from the connected set, and removes it from its
channel's member set (the channel entry itself disappearing when it was the
last member, per the unregistration characterized in the registry lemmas);
while dead, the flag stays false under every non-reviving event, and a pong
or a PING envelope restores it to true. -/
theorem C7_heartbeat_two_sweeps (s : ServerState) (cid : Nat) (c : SConn)
    (es : List ServerEvent)
    (hconn : getConn s.conns cid = some c)
    (halive : c.isAlive = true)
    (hreg : RegWF s.wsConnections)
    (hnd : (s.conns.map Prod.fst).Nodup)
    (hes : ∀ e ∈ es, revives cid e = false ∧ e ≠ ServerEvent.sweep
        ∧ e ≠ ServerEvent.closeEvt cid ∧ ∀ i u, e ≠ ServerEvent.connect i u) :
    connAlive (stepServer s ServerEvent.sweep) cid = some false
    ∧ cid ∈ (stepServer s ServerEvent.sweep).pinged
    ∧ cid ∈ (stepServer (es.foldl stepServer (stepServer s ServerEvent.sweep))
        ServerEvent.sweep).terminated
    ∧ connAlive (stepServer (es.foldl stepServer
        (stepServer s ServerEvent.sweep)) ServerEvent.sweep) cid = none
    ∧ cid ∉ getMembers (stepServer (es.foldl stepServer
        (stepServer s ServerEvent.sweep)) ServerEvent.sweep).wsConnections
        c.channel
    ∧ (∀ s' e, connAlive s' cid = some false → revives cid e = false →
        e ≠ ServerEvent.sweep → e ≠ ServerEvent.closeEvt cid →
        (∀ i u, e ≠ ServerEvent.connect i u) →
        connAlive (stepServer s' e) cid = some false)
    ∧ (∀ s', connAlive s' cid ≠ none →
        connAlive (stepServer s' (ServerEvent.pongFrame cid)) cid = some true
        ∧ connAlive (stepServer s'
            (ServerEvent.message cid (InMsg.envelope "PING"))) cid
          = some true) := by
  have h1 : connAlive (stepServer s ServerEvent.sweep) cid = some false := by
    simp only [stepServer, connAlive]
    rw [getConn_sweep_alive s.conns cid c hconn halive]
    rfl
  have hping : cid ∈ (stepServer s ServerEvent.sweep).pinged := by
    simp only [stepServer]
    apply List.mem_append_right
    rw [List.mem_map]
    exact ⟨(cid, c),
      List.mem_filter.mpr ⟨getConn_mem hconn, by simp [halive]⟩, rfl⟩
  have hreg1 : RegWF (stepServer s ServerEvent.sweep).wsConnections :=
    stepServer_regWF s _ hreg
  have hnd1 : ((stepServer s ServerEvent.sweep).conns.map Prod.fst).Nodup :=
    step_conns_nodup s _ hnd (fun i u h => nomatch h)
  have hdead1 : ∃ c0,
      getConn (stepServer s ServerEvent.sweep).conns cid = some c0
      ∧ c0.isAlive = false ∧ c0.channel = c.channel := by
    refine ⟨{ c with isAlive := false }, ?_, rfl, rfl⟩
    simp only [stepServer]
    exact getConn_sweep_alive s.conns cid c hconn halive
  obtain ⟨hreg2, hnd2, c1, hc1, hc1a, hc1ch⟩ :=
    steps_preserve_dead es _ cid c.channel hreg1 hnd1 hdead1 hes
  refine ⟨h1, hping, ?_, ?_, ?_, ?_, ?_⟩
  · exact sweep_terminated_mem _ cid c1 hc1 hc1a
  · exact sweep_connAlive_none _ cid c1 hnd2 hc1 hc1a
  · rw [← hc1ch]
    exact sweep_removes_member _ cid c1 hreg2 hc1 hc1a
  · intro s' e hal hrev hsw hcl hco
    cases hG : getConn s'.conns cid with
    | none => rw [connAlive, hG] at hal; simp at hal
    | some c0 =>
        rw [connAlive, hG] at hal
        have hc0a : c0.isAlive = false := by simpa using hal
        obtain ⟨c', hg1, hg2, _⟩ :=
          step_preserves_dead s' cid c0 e hG hc0a hrev hsw hcl hco
        simp [connAlive, hg1, hg2]
  · intro s' hne
    cases hG : getConn s'.conns cid with
    | none => exact absurd (by simp [connAlive, hG]) hne
    | some c0 =>
        constructor
        · simp [connAlive, stepServer, getConn_update_self, hG]
        · simp only [stepServer, hG]
          simp [connAlive, getConn_update_self, hG, handleMessage]

/-- Witness for C7: connection 0 joins TENDER_REQUESTS; the first sweep
clears its flag and pings it; it only sends an AUTH envelope (no pong, no
PING) before the next sweep, which terminates it and removes it from the
TENDER_REQUESTS member set. -/
theorem C7_heartbeat_two_sweeps_witness :
    connAlive (stepServer sampleServer ServerEvent.sweep) 0 = some false
    ∧ 0 ∈ (stepServer sampleServer ServerEvent.sweep).pinged
    ∧ 0 ∈ (stepServer ([ServerEvent.message 0 (InMsg.envelope "AUTH")].foldl
        stepServer (stepServer sampleServer ServerEvent.sweep))
        ServerEvent.sweep).terminated
    ∧ 0 ∉ getMembers (stepServer ([ServerEvent.message 0
        (InMsg.envelope "AUTH")].foldl stepServer
        (stepServer sampleServer ServerEvent.sweep))
        ServerEvent.sweep).wsConnections "TENDER_REQUESTS" := by
  have h := C7_heartbeat_two_sweeps sampleServer 0
      { channel := "TENDER_REQUESTS", isAlive := true, isAuthenticated := false }
      [ServerEvent.message 0 (InMsg.envelope "AUTH")]
      (by decide) rfl ⟨by decide, by decide⟩ (by decide)
      (by
        intro e he
        rw [List.mem_singleton] at he
        subst he
        exact ⟨rfl, by decide, by decide, fun i u hh => nomatch hh⟩)
  exact ⟨h.1, h.2.1, h.2.2.1, h.2.2.2.2.1⟩

/-- C10: processing an AUTH envelope sets exactly the connection's
authenticated flag and replies AUTH_SUCCESS, leaving the liveness flag, the
channel, and the registry untouched (no inbound message event touches the
registry); and among inbound envelopes only PING turns the liveness flag
true — any other message leaves it as it was, so an authenticated-but-silent
client keeps a false flag and remains subject to heartbeat termination. -/
theorem C10_auth_envelope_effect (c : SConn) (s : ServerState) (cid : Nat)
    (m : InMsg) :
    (handleMessage c (InMsg.envelope "AUTH")).1
        = { c with isAuthenticated := true }
    ∧ (handleMessage c (InMsg.envelope "AUTH")).2 = ["AUTH_SUCCESS"]
    ∧ (stepServer s (ServerEvent.message cid m)).wsConnections
        = s.wsConnections
    ∧ ((handleMessage c m).1.isAlive = true ↔
        (c.isAlive = true ∨ m = InMsg.envelope "PING")) := by
  refine ⟨rfl, rfl, ?_, ?_⟩
  · cases hG : getConn s.conns cid with
    | none => simp only [stepServer, hG]
    | some c0 => simp only [stepServer, hG]
  · cases m with
    | malformed => simp [handleMessage]
    | envelope t =>
        by_cases ht : t = "PING"
        · subst ht
          simp [handleMessage]
        · by_cases hau : t = "AUTH"
          · subst hau
            simp [handleMessage, ht]
          · simp [handleMessage, ht, hau]

end TenderWS
